import Mathlib

/-!
Verification of the up8-ticket entropy/ticket/sharding pipeline.

The JavaScript source (`src/index.js`) is glue around external libraries.
We shallowly embed it here:

* tickets and entropy buffers are `List ℕ` of byte values; the external
  @q Codec is bijective (spec section 6), so all ticket-level claims are
  stated on the byte sequences a ticket decodes to;
* the system RNG and the auxiliary timing sampler are oracles: their
  outputs are explicit parameters of the embedded functions;
* JavaScript runtime behaviour that the code relies on is embedded
  faithfully: `Buffer.isBuffer` distinguishes Buffers from plain Arrays,
  lodash `zipWith` pads to the longest input with `undefined`, and
  `x ^ undefined` coerces `undefined` to `0`;
* the external Shamir and HMAC-DRBG libraries are not part of the
  repository sources, so they are modelled from the spec where a claim
  needs their algorithmic content.
-/

namespace UP8

/-- A JavaScript value as passed for the `addl` argument: a Buffer, a plain
Array of numbers, or `undefined`.  `gen_ticket_simple` and `gen_ticket_more`
branch on `Buffer.isBuffer`. -/
inductive JSVal : Type where
  | buffer (bytes : List ℕ)
  | array (xs : List ℕ)
  | undef
deriving DecidableEq

/-- Embedding of `Buffer.isBuffer`: true exactly on Buffers. -/
def JSVal.isBuffer : JSVal → Bool
  | JSVal.buffer _ => true
  | _ => false

/-- The numeric contents of a JS value (empty for `undefined`). -/
def JSVal.bytes : JSVal → List ℕ
  | JSVal.buffer bs => bs
  | JSVal.array xs => xs
  | JSVal.undef => []

/-- Embedding of lodash `zipWith(a, b, xor)`: lodash `zip` groups up to the
LONGEST input, missing entries are `undefined`, and the JS expression
`x ^ undefined` coerces `undefined` to `0`.  So the result has length
`max a.length b.length` and entry `i` is `a[i] xor b[i]` with missing bytes
read as `0`. -/
def jsZipWithXor (a b : List ℕ) : List ℕ :=
  (List.range (max a.length b.length)).map fun i => (a.getD i 0) ^^^ (b.getD i 0)

/-- Embedding of `gen_ticket_simple` (src/index.js lines 43-55) at the byte
level.  `nbytes` is `nbits / 8`; `entropy` is the output of the
`crypto.rng(nbytes)` oracle; `addl` is the optional extra buffer.  The code
XORs `entropy` with `addl` and slices to `nbytes` when `addl` is a Buffer,
and ignores `addl` otherwise; the resulting bytes are what the returned
@q ticket decodes to. -/
def gen_ticket_simple (nbytes : ℕ) (entropy : List ℕ) (addl : JSVal) : List ℕ :=
  if addl.isBuffer then (jsZipWithXor entropy addl.bytes).take nbytes else entropy

/-- Embedding of lodash `chunk(result, 2)`: split a list into consecutive
pairs, with a final singleton chunk when the length is odd. -/
def chunk2 : List ℕ → List (List ℕ)
  | [] => []
  | [a] => [[a]]
  | a :: b :: rest => [a, b] :: chunk2 rest

/-- Embedding of `gen_ticket_more` (src/index.js lines 71-96) at the byte
level.  `rngEntropy` is the `crypto.rng(nbytes)` output drawn inside the
nested `gen_ticket_simple` call; `result` is the sample list delivered by
the `more-entropy` generator.  The code chunks `result` into pairs, keeps
`nbytes` pairs, XOR-folds each pair (`arr[0] ^ arr[1]`, with `undefined`
read as `0` for a trailing singleton), and passes the folded list to
`gen_ticket_simple` as a plain JS Array — not a Buffer.  It then decodes
the returned ticket and XORs it with `addl` when `addl` is a Buffer. -/
def gen_ticket_more (nbytes : ℕ) (rngEntropy result : List ℕ) (addl : JSVal) : List ℕ :=
  let pairs := chunk2 result
  let entropy := pairs.take nbytes
  let moreBytes := entropy.map fun arr => (arr.getD 0 0) ^^^ (arr.getD 1 0)
  let bufticket := gen_ticket_simple nbytes rngEntropy (JSVal.array moreBytes)
  if addl.isBuffer then (jsZipWithXor bufticket addl.bytes).take nbytes else bufticket

/-- The state of a JavaScript Promise: pending, fulfilled with a value, or
rejected with a reason.  A promise settles at most once: `resolve` and
`reject` only act on a pending promise. -/
inductive PromiseState (α ε : Type) : Type where
  | pending
  | fulfilled (a : α)
  | rejected (e : ε)
deriving DecidableEq

/-- Embedding of a Promise `resolve`: settles a pending promise, and is a
no-op on an already settled one. -/
def resolveP {α ε : Type} (a : α) : PromiseState α ε → PromiseState α ε
  | PromiseState.pending => PromiseState.fulfilled a
  | st => st

/-- Embedding of a Promise `reject`: settles a pending promise, and is a
no-op on an already settled one. -/
def rejectP {α ε : Type} (e : ε) : PromiseState α ε → PromiseState α ε
  | PromiseState.pending => PromiseState.rejected e
  | st => st

/-- The callback body shared by the `more-entropy` promises in
`gen_ticket_more` (lines 92-93) and `gen_ticket_drbg` (lines 118-119): it
calls `resolve(t)` and then, unconditionally, `reject("entropy generation
failed")`. -/
def entropyCallback {α : Type} (t : α) (st : PromiseState α String) : PromiseState α String :=
  rejectP "entropy generation failed" (resolveP t st)

/-- Embedding of `unpad` (src/index.js lines 16-24) on the character list of
a hex string: if the first character is `'0'` it is stripped, otherwise the
function throws.  `''.slice(0, 1)` is `''`, so the empty string also throws;
`List.take 1` captures both cases. -/
def unpad (str : List Char) : Except String (List Char) :=
  if str.take 1 = ['0'] then Except.ok (str.drop 1)
  else Except.error "nonzero leading digit -- please report this as a bug!"

/-- Embedding of `shards.map(unpad)` under JS exception semantics: the map
stops at the first share whose `unpad` throws, and that exception propagates
out of `combine`. -/
def unpadAll : List (List Char) → Except String (List (List Char))
  | [] => Except.ok []
  | s :: rest =>
    match unpad s with
    | Except.error e => Except.error e
    | Except.ok t =>
      match unpadAll rest with
      | Except.error e => Except.error e
      | Except.ok ts => Except.ok (t :: ts)

/-- Embedding of `combine` (src/index.js lines 169-173).  The external
collaborators are parameters: `patq2hex` and `hex2patq` are the Codec's
decode/encode on hex character lists, and `secretsCombine` is
`secrets.combine` from the external Shamir library.  The code decodes every
shard, unpads each decoded hex string, hands the results to the Shamir
combiner and re-encodes. -/
def combine (secretsCombine : List (List Char) → List Char)
    (patq2hex : String → List Char) (hex2patq : List Char → String)
    (shards : List String) : Except String String :=
  match unpadAll (shards.map patq2hex) with
  | Except.error e => Except.error e
  | Except.ok hexshards => Except.ok (hex2patq (secretsCombine hexshards))

/-- Embedding of `shard` (src/index.js lines 147-157).  `isValidPatq` is the
Codec's validity test, `secretsShare` is `secrets.share` from the external
Shamir library.  The validity check runs first; only a valid ticket is
decoded and sharded. -/
def shard (isValidPatq : String → Bool)
    (secretsShare : List Char → ℕ → ℕ → List (List Char))
    (patq2hex : String → List Char) (hex2patq : List Char → String)
    (ticket : String) (n k : ℕ) : Except String (List String) :=
  if isValidPatq ticket then
    Except.ok ((secretsShare (patq2hex ticket) n k).map hex2patq)
  else Except.error "input is not @q-encoded"

/-- The internal state of an HMAC-DRBG: the key `K` and the value `V`.
Modelled from the spec: section 4.2 describes the NIST SP 800-90A style
construction of the external `hmac-drbg` library, which is not part of the
repository sources. -/
structure DrbgState : Type where
  K : List ℕ
  V : List ℕ
deriving DecidableEq

/-- Modelled from the spec: the HMAC-DRBG update step of the external
`hmac-drbg` library (spec section 4.2), parametric in the HMAC function.
`K = HMAC(K, V || 0x00 || data)`, `V = HMAC(K, V)`, and when `data` is
nonempty a second round with separator `0x01`. -/
def hmacDrbgUpdate (hmac : List ℕ → List ℕ → List ℕ) (data : List ℕ)
    (st : DrbgState) : DrbgState :=
  let K1 := hmac st.K (st.V ++ [0] ++ data)
  let V1 := hmac K1 st.V
  if data = [] then ⟨K1, V1⟩
  else
    let K2 := hmac K1 (V1 ++ [1] ++ data)
    ⟨K2, hmac K2 V1⟩

/-- Modelled from the spec: seeding of the external `hmac-drbg` library
(spec section 4.2): the state `(K, V)` starts from constants and is updated
with the concatenated seed material `entropy || nonce || personalization`. -/
def hmacDrbgSeed (hmac : List ℕ → List ℕ → List ℕ)
    (entropy nonce pers : List ℕ) : DrbgState :=
  hmacDrbgUpdate hmac (entropy ++ nonce ++ pers)
    ⟨List.replicate 32 0, List.replicate 32 1⟩

/-- Modelled from the spec: the block-generation loop of HMAC-DRBG
`generate` — repeatedly `V = HMAC(K, V)`, concatenating the values of `V`. -/
def hmacDrbgBlocks (hmac : List ℕ → List ℕ → List ℕ) (K : List ℕ) :
    ℕ → List ℕ → List ℕ
  | 0, _ => []
  | n + 1, V =>
    let V1 := hmac K V
    V1 ++ hmacDrbgBlocks hmac K n V1

/-- Modelled from the spec: HMAC-DRBG `generate(nbytes)` derives `nbytes`
output bytes deterministically from the current state (spec section 4.2),
taking as many 32-byte SHA-256-sized blocks as needed and truncating. -/
def hmacDrbgGenerate (hmac : List ℕ → List ℕ → List ℕ) (nbytes : ℕ)
    (st : DrbgState) : List ℕ :=
  (hmacDrbgBlocks hmac st.K ((nbytes + 31) / 32) st.V).take nbytes

/-- Embedding of `gen_ticket_drbg` (src/index.js lines 111-132) at the byte
level.  `entropy` is the `crypto.rng(nbits / 8)` output and `nonce` the hex
rendering of the auxiliary samples; `pers` is the optional personalization
derived from `addl`.  The minimum-entropy check is modelled from the spec:
the external `hmac-drbg` library rejects seeds whose entropy input is below
192 bits, i.e. below 24 bytes (spec section 4.2, `InvalidBitLength`). -/
def gen_ticket_drbg (hmac : List ℕ → List ℕ → List ℕ) (nbits : ℕ)
    (entropy nonce : List ℕ) (pers : Option (List ℕ)) : Except String (List ℕ) :=
  if 24 ≤ entropy.length then
    Except.ok (hmacDrbgGenerate hmac (nbits / 8)
      (hmacDrbgSeed hmac entropy nonce (pers.getD [])))
  else Except.error "InvalidBitLength"

/-- Modelled from the spec: evaluation of one Shamir polynomial of the
external Shamir library (spec section 4.5): per byte position the share
value at node `x` is the evaluation of a polynomial with constant term the
secret byte and `m` further random coefficients, `secret + Σ co i * x^(i+1)`.
Parametric in the field; the spec instantiates it at GF(256). -/
def shareByte {F : Type} [Field F] (m : ℕ) (secret : F) (co : Fin m → F)
    (x : F) : F :=
  secret + ∑ i : Fin m, co i * x ^ ((i : ℕ) + 1)

/-- Modelled from the spec: the Shamir combiner's per-byte Lagrange
interpolation at `x = 0` (spec section 4.6), written exactly as the spec's
formula `Σ_i y_i · Π_j (x_j / (x_j − x_i))` over the node set `s`. -/
def combineByte {F : Type} [Field F] [DecidableEq F] (s : Finset F)
    (y : F → F) : F :=
  ∑ i ∈ s, y i * ∏ j ∈ s.erase i, (j / (j - i))

/-- Modelled from the spec: the byte-sequence value of the share at node
`x` (spec section 4.5) — every byte position of the secret is shared with
its own coefficient vector `cos p`. -/
def shardValue {F : Type} [Field F] (m : ℕ) (secret : List F)
    (cos : ℕ → Fin m → F) (x : F) : List F :=
  (List.range secret.length).map fun p => shareByte m (secret.getD p 0) (cos p) x

/-- Modelled from the spec: the Shamir combiner on byte sequences (spec
section 4.6): interpolate each of the `L` byte positions independently over
the supplied node set `sub`, reading share values through `yss`. -/
def combineShares {F : Type} [Field F] [DecidableEq F] (sub : Finset F)
    (yss : F → List F) (L : ℕ) : List F :=
  (List.range L).map fun p => combineByte sub fun x => (yss x).getD p 0

/-- The Shamir polynomial of `shareByte` as a `Polynomial`, used only in
proofs. -/
noncomputable def shamirPoly {F : Type} [Field F] (m : ℕ) (secret : F)
    (co : Fin m → F) : Polynomial F :=
  Polynomial.C secret + ∑ i : Fin m, Polynomial.C (co i) * Polynomial.X ^ ((i : ℕ) + 1)

instance : Fact (Nat.Prime 257) := ⟨by norm_num⟩

/-- The length of the lodash XOR zip is the longer input's length. -/
theorem jsZipWithXor_length (a b : List ℕ) :
    (jsZipWithXor a b).length = max a.length b.length := by
  unfold jsZipWithXor
  rw [List.length_map, List.length_range]

/-- `unpadAll` succeeds when every string starts with `'0'`, stripping that
character from each. -/
theorem unpadAll_ok (l : List (List Char)) (h : ∀ s ∈ l, s.take 1 = ['0']) :
    unpadAll l = Except.ok (l.map (List.drop 1)) := by
  induction l with
  | nil => rfl
  | cons s rest ih =>
    have hs : s.take 1 = ['0'] := h s (List.mem_cons_self s rest)
    have hrest := ih fun t ht => h t (List.mem_cons_of_mem s ht)
    unfold unpadAll unpad
    rw [if_pos hs, hrest]
    rfl

/-- `unpadAll` fails with the `unpad` error message as soon as some string
does not start with `'0'`. -/
theorem unpadAll_error (l : List (List Char)) (h : ∃ s ∈ l, ¬ s.take 1 = ['0']) :
    unpadAll l = Except.error "nonzero leading digit -- please report this as a bug!" := by
  induction l with
  | nil => simp at h
  | cons s rest ih =>
    unfold unpadAll unpad
    by_cases hs : s.take 1 = ['0']
    · rw [if_pos hs]
      have hrest : ∃ t ∈ rest, ¬ t.take 1 = ['0'] := by
        rcases h with ⟨t, ht, hbad⟩
        rcases List.mem_cons.mp ht with heq | hmem
        · exact absurd (heq ▸ hs) hbad
        · exact ⟨t, hmem, hbad⟩
      rw [ih hrest]
    · rw [if_neg hs]

/-- The Shamir polynomial evaluates to `shareByte`. -/
theorem shamirPoly_eval {F : Type} [Field F] (m : ℕ) (secret : F)
    (co : Fin m → F) (x : F) :
    (shamirPoly m secret co).eval x = shareByte m secret co x := by
  unfold shamirPoly shareByte
  rw [Polynomial.eval_add, Polynomial.eval_C, Polynomial.eval_finset_sum]
  refine congrArg (secret + ·) (Finset.sum_congr rfl fun i _ => ?_)
  rw [Polynomial.eval_mul, Polynomial.eval_C, Polynomial.eval_pow, Polynomial.eval_X]

/-- The Shamir polynomial with `m` higher coefficients has degree at most
`m`. -/
theorem shamirPoly_degree_le {F : Type} [Field F] (m : ℕ) (secret : F)
    (co : Fin m → F) :
    (shamirPoly m secret co).degree ≤ (m : WithBot ℕ) := by
  unfold shamirPoly
  refine le_trans (Polynomial.degree_add_le _ _) (max_le ?_ ?_)
  · exact le_trans Polynomial.degree_C_le (by exact_mod_cast Nat.zero_le m)
  · refine le_trans (Polynomial.degree_sum_le _ _) (Finset.sup_le fun i _ => ?_)
    refine le_trans (Polynomial.degree_C_mul_X_pow_le _ _) ?_
    exact_mod_cast Nat.succ_le_of_lt i.is_lt

/-- Evaluating the share polynomial at `0` recovers the secret byte. -/
theorem shareByte_zero {F : Type} [Field F] (m : ℕ) (secret : F)
    (co : Fin m → F) : shareByte m secret co 0 = secret := by
  unfold shareByte
  rw [Finset.sum_eq_zero, add_zero]
  intro i _
  rw [zero_pow (Nat.succ_ne_zero _), mul_zero]

/-- The spec's combiner formula is the evaluation at `0` of the Lagrange
interpolant through the supplied nodes. -/
theorem combineByte_eq_interpolate {F : Type} [Field F] [DecidableEq F]
    (s : Finset F) (y : F → F) :
    combineByte s y = Polynomial.eval 0 (Lagrange.interpolate s id y) := by
  rw [Lagrange.interpolate_apply, Polynomial.eval_finset_sum]
  unfold combineByte
  refine Finset.sum_congr rfl fun i _ => ?_
  rw [Polynomial.eval_mul, Polynomial.eval_C]
  refine congrArg (y i * ·) ?_
  unfold Lagrange.basis
  rw [Polynomial.eval_prod]
  refine Finset.prod_congr rfl fun j _ => ?_
  unfold Lagrange.basisDivisor
  rw [Polynomial.eval_mul, Polynomial.eval_C, Polynomial.eval_sub,
    Polynomial.eval_X, Polynomial.eval_C, id_eq, id_eq]
  rw [div_eq_mul_inv, show (j : F) - i = -(i - j) by ring, inv_neg, zero_sub]
  ring

/-- Per-byte Shamir round trip: interpolating the share values over any node
set larger than the polynomial degree recovers the secret byte. -/
theorem combineByte_shareByte {F : Type} [Field F] [DecidableEq F] (m : ℕ)
    (secret : F) (co : Fin m → F) (s : Finset F) (hcard : m < s.card) :
    combineByte s (shareByte m secret co) = secret := by
  have hinj : Set.InjOn id (s : Set F) := Set.injOn_id _
  have hdeg : (shamirPoly m secret co).degree < (s.card : WithBot ℕ) :=
    lt_of_le_of_lt (shamirPoly_degree_le m secret co) (by exact_mod_cast hcard)
  have hfun : (fun i => (shamirPoly m secret co).eval (id i)) = shareByte m secret co :=
    funext fun x => shamirPoly_eval m secret co x
  have heq : shamirPoly m secret co = Lagrange.interpolate s id (shareByte m secret co) := by
    rw [← hfun]
    exact Lagrange.eq_interpolate hinj hdeg
  rw [combineByte_eq_interpolate, ← heq, shamirPoly_eval, shareByte_zero]

/-- The combined byte sequence always has the requested length. -/
theorem combineShares_length {F : Type} [Field F] [DecidableEq F]
    (sub : Finset F) (yss : F → List F) (L : ℕ) :
    (combineShares sub yss L).length = L := by
  unfold combineShares
  rw [List.length_map, List.length_range]

/-- Claim C1: for every secret byte sequence and every threshold `k ≥ 2`,
combining the shares at any `k`-element node set of the shards produced by
the spec-modelled Shamir sharer (degree-`(k-1)` polynomials, per byte
position, evaluated at distinct nonzero nodes `1..n`) yields exactly the
original secret.  The field is a parameter: the spec's GF(256) instance of
the external Shamir library is modelled parametrically over any field, and
any `k`-subset of the `n` share nodes is an arbitrary `k`-element node
set. -/
theorem shard_combine_round_trip {F : Type} [Field F] [DecidableEq F] (k : ℕ)
    (hk : 2 ≤ k) (secret : List F) (cos : ℕ → Fin (k - 1) → F) (sub : Finset F)
    (hsub : sub.card = k) :
    combineShares sub (shardValue (k - 1) secret cos) secret.length = secret := by
  apply List.ext_getElem (combineShares_length _ _ _)
  intro p h1 h2
  unfold combineShares
  simp only [List.getElem_map, List.getElem_range]
  have hfun : (fun x => (shardValue (k - 1) secret cos x).getD p 0) =
      shareByte (k - 1) (secret.getD p 0) (cos p) := by
    funext x
    unfold shardValue
    have hp : p < ((List.range secret.length).map
        fun q => shareByte (k - 1) (secret.getD q 0) (cos q) x).length := by
      simpa using h2
    rw [List.getD_eq_getElem _ _ hp]
    simp only [List.getElem_map, List.getElem_range]
  rw [hfun, combineByte_shareByte _ _ _ _ (by rw [hsub]; omega),
    List.getD_eq_getElem _ _ h2]

/-- Witness for C1 over the computable field `ZMod 257`: a two-byte secret
shared with threshold `k = 2` is recovered from the nodes `{1, 2}`. -/
theorem shard_combine_round_trip_witness :
    2 ≤ 2 ∧ ({1, 2} : Finset (ZMod 257)).card = 2 ∧
    combineShares ({1, 2} : Finset (ZMod 257))
      (shardValue 1 [3, 5] fun _ _ => 4) 2 = [3, 5] :=
  ⟨by decide, by decide,
    shard_combine_round_trip 2 (by decide) [3, 5] (fun _ _ => 4) {1, 2} (by decide)⟩

/-- Claim C2: refuted by the code.  `gen_ticket_more` passes the folded
auxiliary entropy to `gen_ticket_simple` as a plain JS Array, so the
`Buffer.isBuffer` test inside `gen_ticket_simple` is false and the
auxiliary entropy is discarded.  With rng bytes `[170, 187]` and auxiliary
samples `[1, 2, 3, 4]` (which fold to `[3, 7]`), the ticket bytes are the
raw rng bytes `[170, 187]` — not the XOR `[169, 188]` that the claim and
the code's own comment prescribe. -/
theorem gen_ticket_more_drops_aux :
    gen_ticket_more 2 [170, 187] [1, 2, 3, 4] JSVal.undef = [170, 187] ∧
    jsZipWithXor [170, 187] [1 ^^^ 2, 3 ^^^ 4] = [169, 188] ∧
    gen_ticket_more 2 [170, 187] [1, 2, 3, 4] JSVal.undef ≠ [169, 188] := by
  decide

/-- Claim C3: counterexample.  With target length `2`, entropy `[1, 2]` and
the shorter addl buffer `[3]`, the combined output is `[2, 2]`, of length
`2` (the target length) — not of length `1`, the shorter input's length, as
the claim states. -/
theorem gen_ticket_simple_shorter_addl_cex :
    gen_ticket_simple 2 [1, 2] (JSVal.buffer [3]) = [2, 2] ∧
    (JSVal.buffer [3]).bytes.length = 1 ∧
    (gen_ticket_simple 2 [1, 2] (JSVal.buffer [3])).length ≠ 1 := by
  decide

/-- Claim C3 (amended): the combiner XORs elementwise with missing bytes of
the shorter buffer read as `0` (lodash `zip` pads to the longest input and
JS coerces `undefined` to `0` under `^`), then truncates to the target
length; the output length always equals the target length — the entropy
buffer's length — which coincides with the shorter input's length only when
`addl` is at least as long as the target. -/
theorem gen_ticket_simple_xor_padded (nbytes : ℕ) (entropy addl : List ℕ)
    (hlen : entropy.length = nbytes) :
    gen_ticket_simple nbytes entropy (JSVal.buffer addl) =
      (List.range nbytes).map (fun i => (entropy.getD i 0) ^^^ (addl.getD i 0)) ∧
    (gen_ticket_simple nbytes entropy (JSVal.buffer addl)).length = nbytes := by
  have hmain : gen_ticket_simple nbytes entropy (JSVal.buffer addl) =
      (List.range nbytes).map fun i => (entropy.getD i 0) ^^^ (addl.getD i 0) := by
    unfold gen_ticket_simple jsZipWithXor
    simp only [JSVal.isBuffer, JSVal.bytes, if_true]
    rw [← List.map_take, List.take_range, hlen]
    congr 2
    omega
  exact ⟨hmain, by rw [hmain, List.length_map, List.length_range]⟩

/-- Witness for the amended C3 at target length 2 with a one-byte addl. -/
theorem gen_ticket_simple_xor_padded_witness :
    ([5, 6] : List ℕ).length = 2 ∧
    (gen_ticket_simple 2 [5, 6] (JSVal.buffer [1]) =
      (List.range 2).map (fun i => (([5, 6] : List ℕ).getD i 0) ^^^ (([1] : List ℕ).getD i 0)) ∧
    (gen_ticket_simple 2 [5, 6] (JSVal.buffer [1])).length = 2) :=
  ⟨by decide, gen_ticket_simple_xor_padded 2 [5, 6] [1] (by decide)⟩

/-- Claim C4: for every positive multiple of 8 `nbits` and system rng
entropy of `nbits / 8` bytes, the `gen_ticket_simple` ticket decodes to
exactly `nbits / 8` bytes, whatever `addl` is. -/
theorem gen_ticket_simple_length (nbits : ℕ) (_hpos : 0 < nbits) (_h8 : 8 ∣ nbits)
    (entropy : List ℕ) (hlen : entropy.length = nbits / 8) (addl : JSVal) :
    (gen_ticket_simple (nbits / 8) entropy addl).length = nbits / 8 := by
  unfold gen_ticket_simple
  cases addl with
  | buffer bs =>
    simp only [JSVal.isBuffer, JSVal.bytes, if_true]
    rw [List.length_take, jsZipWithXor_length, hlen]
    omega
  | array xs => simpa [JSVal.isBuffer] using hlen
  | undef => simpa [JSVal.isBuffer] using hlen

/-- Witness for C4 at `nbits = 192`: the output has `192 / 8 = 24` bytes. -/
theorem gen_ticket_simple_length_witness :
    0 < 192 ∧ (8 ∣ 192) ∧ (List.replicate 24 (0 : ℕ)).length = 192 / 8 ∧
    (gen_ticket_simple (192 / 8) (List.replicate 24 (0 : ℕ)) JSVal.undef).length = 192 / 8 :=
  ⟨by decide, by decide, by decide,
    gen_ticket_simple_length 192 (by decide) (by decide) (List.replicate 24 0)
      (by decide) JSVal.undef⟩

/-- Claim C5: the promise executors in `gen_ticket_more` and
`gen_ticket_drbg` call `resolve(t)` and then unconditionally `reject`, but a
promise settles at most once: run from the pending state, the callback
leaves the promise fulfilled with the generated value, and it is never
rejected — every run settles with a single outcome. -/
theorem entropyCallback_settles_once (α : Type) (t : α) :
    entropyCallback t (PromiseState.pending : PromiseState α String) =
      PromiseState.fulfilled t ∧
    ∀ e : String, entropyCallback t (PromiseState.pending : PromiseState α String) ≠
      PromiseState.rejected e :=
  ⟨rfl, fun _ h => PromiseState.noConfusion h⟩

/-- Witness for C5 at a concrete ticket value. -/
theorem entropyCallback_settles_once_witness :
    entropyCallback (0 : ℕ) (PromiseState.pending : PromiseState ℕ String) =
      PromiseState.fulfilled 0 ∧
    entropyCallback (0 : ℕ) (PromiseState.pending : PromiseState ℕ String) ≠
      PromiseState.rejected "entropy generation failed" :=
  ⟨(entropyCallback_settles_once ℕ 0).1,
    (entropyCallback_settles_once ℕ 0).2 "entropy generation failed"⟩

/-- Claim C6: during `combine`, every decoded share whose hex string starts
with the single spurious zero nibble has exactly that nibble stripped before
the Shamir combiner runs on the stripped strings; if some decoded share has
a nonzero leading nibble, `combine` fails with the malformed-share error
instead of returning a result. -/
theorem combine_unpads_or_fails (secretsCombine : List (List Char) → List Char)
    (patq2hex : String → List Char) (hex2patq : List Char → String)
    (shards : List String) :
    ((∀ sh ∈ shards, (patq2hex sh).take 1 = ['0']) →
      combine secretsCombine patq2hex hex2patq shards =
        Except.ok (hex2patq (secretsCombine ((shards.map patq2hex).map (List.drop 1))))) ∧
    ((∃ sh ∈ shards, ¬ (patq2hex sh).take 1 = ['0']) →
      combine secretsCombine patq2hex hex2patq shards =
        Except.error "nonzero leading digit -- please report this as a bug!") := by
  constructor
  · intro h
    unfold combine
    rw [unpadAll_ok ((shards.map patq2hex)) (by
      intro t ht
      rcases List.mem_map.mp ht with ⟨sh, hsh, hrw⟩
      rw [← hrw]
      exact h sh hsh)]
  · intro h
    unfold combine
    rw [unpadAll_error ((shards.map patq2hex)) (by
      rcases h with ⟨sh, hsh, hbad⟩
      exact ⟨patq2hex sh, List.mem_map_of_mem patq2hex hsh, hbad⟩)]

/-- Witness for C6: a padded share is stripped and combined; a share with a
nonzero leading nibble aborts with the malformed-share error. -/
theorem combine_unpads_or_fails_witness :
    combine (fun _ => []) (fun _ => ['0', '7']) (fun _ => "t") ["a"] = Except.ok "t" ∧
    combine (fun _ => []) (fun _ => ['1', '7']) (fun _ => "t") ["a"] =
      Except.error "nonzero leading digit -- please report this as a bug!" :=
  ⟨(combine_unpads_or_fails (fun _ => []) (fun _ => ['0', '7']) (fun _ => "t") ["a"]).1
      (fun _ _ => rfl),
    (combine_unpads_or_fails (fun _ => []) (fun _ => ['1', '7']) (fun _ => "t") ["a"]).2
      ⟨"a", by simp, by decide⟩⟩

/-- Claim C7 (amended): combining fewer shares than the threshold is not an
error — `combine` completes without failing on any number of well-formed
shares and the spec-modelled combiner returns a well-formed ticket of the
requested length from any node set — but the result need not differ from
the original secret: it can coincide with it for particular coefficient
draws (see the counterexample). -/
theorem combine_insufficient_shares {F : Type} [Field F] [DecidableEq F]
    (sub : Finset F) (yss : F → List F) (L : ℕ)
    (secretsCombine : List (List Char) → List Char)
    (patq2hex : String → List Char) (hex2patq : List Char → String)
    (shards : List String) (hpad : ∀ sh ∈ shards, (patq2hex sh).take 1 = ['0']) :
    (∃ t, combine secretsCombine patq2hex hex2patq shards = Except.ok t) ∧
    (combineShares sub yss L).length = L := by
  constructor
  · refine ⟨hex2patq (secretsCombine ((shards.map patq2hex).map (List.drop 1))), ?_⟩
    unfold combine
    rw [unpadAll_ok ((shards.map patq2hex)) (by
      intro t ht
      rcases List.mem_map.mp ht with ⟨sh, hsh, hrw⟩
      rw [← hrw]
      exact hpad sh hsh)]
  · exact combineShares_length _ _ _

/-- Witness for the amended C7 with two well-formed shares and a singleton
node set over `ZMod 257`. -/
theorem combine_insufficient_shares_witness :
    (∀ sh ∈ (["a", "b"] : List String), (['0', '7'] : List Char).take 1 = ['0']) ∧
    ((∃ t, combine (fun _ => []) (fun _ => ['0', '7']) (fun _ => "t") ["a", "b"] =
      Except.ok t) ∧
    (combineShares ({1} : Finset (ZMod 257)) (fun _ => [0]) 1).length = 1) :=
  ⟨fun _ _ => rfl,
    combine_insufficient_shares ({1} : Finset (ZMod 257)) (fun _ => [0]) 1
      (fun _ => []) (fun _ => ['0', '7']) (fun _ => "t") ["a", "b"] (fun _ _ => rfl)⟩

/-- Claim C7: counterexample to "differs from the original secret".  Shard
the one-byte secret `7` with threshold `k = 3` (two higher coefficients per
byte, here both drawn as `0`, a possible random sample); combining only the
two shares at nodes `1` and `2` — fewer than `k` — returns exactly the
original secret. -/
theorem combine_insufficient_shares_cex :
    combineShares ({1, 2} : Finset (ZMod 257)) (shardValue 2 [7] fun _ _ => 0) 1 = [7] := by
  have hfun : (fun x => (shardValue 2 ([7] : List (ZMod 257)) (fun _ _ => 0) x).getD 0 0) =
      shareByte 0 (7 : ZMod 257) (fun i => 0) := by
    funext x
    simp [shardValue, shareByte]
  unfold combineShares
  rw [show List.range 1 = [0] from rfl]
  simp only [List.map_cons, List.map_nil]
  rw [hfun, combineByte_shareByte 0 7 (fun i => 0) ({1, 2} : Finset (ZMod 257)) (by decide)]

/-- Claim C8: with system rng entropy of `nbits / 8` bytes, the drbg
strategy fails with the invalid-bit-length caller error for every `nbits`
below 192, and succeeds for every multiple of 8 at least 192 (the check is
modelled from the spec's minimum-entropy precondition on the external
`hmac-drbg` library). -/
theorem gen_ticket_drbg_min_bits (hmac : List ℕ → List ℕ → List ℕ) (nbits : ℕ)
    (h8 : 8 ∣ nbits) (entropy nonce : List ℕ)
    (hlen : entropy.length = nbits / 8) (pers : Option (List ℕ)) :
    (nbits < 192 → gen_ticket_drbg hmac nbits entropy nonce pers =
      Except.error "InvalidBitLength") ∧
    (192 ≤ nbits → ∃ t, gen_ticket_drbg hmac nbits entropy nonce pers = Except.ok t) := by
  constructor
  · intro hlt
    unfold gen_ticket_drbg
    rw [hlen, if_neg (by omega)]
  · intro hge
    unfold gen_ticket_drbg
    rw [hlen, if_pos (by omega)]
    exact ⟨_, rfl⟩

/-- Witness for C8 at the boundary `nbits = 192`, where generation
succeeds. -/
theorem gen_ticket_drbg_min_bits_witness :
    (8 ∣ 192) ∧ (List.replicate 24 (0 : ℕ)).length = 192 / 8 ∧ 192 ≤ 192 ∧
    ∃ t, gen_ticket_drbg (fun k _ => k) 192 (List.replicate 24 0) [1] none =
      Except.ok t :=
  ⟨by decide, by decide, by decide,
    (gen_ticket_drbg_min_bits (fun k _ => k) 192 (by decide) (List.replicate 24 0)
      [1] (by decide) none).2 (by decide)⟩

/-- Claim C9: the DRBG stage is deterministic — identical entropy, nonce
and personalization seed inputs yield identical generated bytes, for every
HMAC function and output length (the construction is modelled from the
spec, the external `hmac-drbg` library not being part of the sources). -/
theorem drbg_deterministic (hmac : List ℕ → List ℕ → List ℕ)
    (e1 n1 p1 e2 n2 p2 : List ℕ) (nbytes : ℕ)
    (he : e1 = e2) (hn : n1 = n2) (hp : p1 = p2) :
    hmacDrbgGenerate hmac nbytes (hmacDrbgSeed hmac e1 n1 p1) =
      hmacDrbgGenerate hmac nbytes (hmacDrbgSeed hmac e2 n2 p2) := by
  rw [he, hn, hp]

/-- Witness for C9 with a concrete HMAC stub and concrete seeds. -/
theorem drbg_deterministic_witness :
    ([3] : List ℕ) = [3] ∧ ([4] : List ℕ) = [4] ∧ ([5] : List ℕ) = [5] ∧
    hmacDrbgGenerate (fun k v => k ++ v) 8 (hmacDrbgSeed (fun k v => k ++ v) [3] [4] [5]) =
      hmacDrbgGenerate (fun k v => k ++ v) 8 (hmacDrbgSeed (fun k v => k ++ v) [3] [4] [5]) :=
  ⟨rfl, rfl, rfl,
    drbg_deterministic (fun k v => k ++ v) [3] [4] [5] [3] [4] [5] 8 rfl rfl rfl⟩

/-- Claim C10: a ticket failing the @q validity check makes `shard` fail
with "input is not @q-encoded", and the result does not depend on the
secret-sharing function — the validity of the encoding is checked before
any secret-sharing arithmetic, and no shard is produced. -/
theorem shard_invalid_ticket (isValidPatq : String → Bool)
    (secretsShare : List Char → ℕ → ℕ → List (List Char))
    (patq2hex : String → List Char) (hex2patq : List Char → String)
    (ticket : String) (n k : ℕ) (hv : isValidPatq ticket = false) :
    shard isValidPatq secretsShare patq2hex hex2patq ticket n k =
      Except.error "input is not @q-encoded" ∧
    ∀ secretsShare2 : List Char → ℕ → ℕ → List (List Char),
      shard isValidPatq secretsShare patq2hex hex2patq ticket n k =
        shard isValidPatq secretsShare2 patq2hex hex2patq ticket n k := by
  constructor
  · simp [shard, hv]
  · intro s2
    simp [shard, hv]

/-- Witness for C10 on a concrete invalid ticket. -/
theorem shard_invalid_ticket_witness :
    ((fun _ : String => false) "foo" = false) ∧
    shard (fun _ => false) (fun _ _ _ => []) (fun _ => []) (fun _ => "") "foo" 3 2 =
      Except.error "input is not @q-encoded" :=
  ⟨rfl, (shard_invalid_ticket (fun _ => false) (fun _ _ _ => []) (fun _ => [])
    (fun _ => "") "foo" 3 2 rfl).1⟩

end UP8
